import Mathlib

/-!
Verification of the pyhash canonicalization and traversal engine
(`src/pyhash/core/hasher.py`, `src/pyhash/core/registry.py`).

The development shallowly embeds the hasher as follows.

* `md5` is a concrete, executable model of the digest primitive
  (`hashlib.md5(...).digest()`): bytes are `Nat` values below 256,
  machine words are `Nat` values reduced modulo `2 ^ 32`.
* `Value` models the Python values the hasher accepts: `None`, `int`,
  `float` (carried by its decimal `str()` form, which is the only thing
  the hasher reads from a float), `bool`, `str`, `bytes`, `list`,
  `tuple`, `dict` (as an insertion-ordered entry list), `set` and
  `frozenset` (as iteration-ordered element lists), and opaque custom
  objects routed through the type registry.
* `myHashF` is the engine: fuel-indexed so that every definition is
  structurally recursive and kernel-executable.  `myHashC` instantiates
  the fuel with the structural size `vsize v`, which is proved
  sufficient (`myHashF_irrel`), giving the fuel-free unfolding
  `myHashC_unfold`.  Python exceptions (`TypeError`) are modelled by
  `Except PyErr`.
* `insSort` is a stable insertion sort modelling Python's stable
  `sorted`; `bytesLeB` models `bytes` comparison, and the descending
  `sorted(..., reverse=True)` of the list branch is `insSort bytesGeB`.
* The process-wide `lru_cache` scalar caches are modelled by an
  explicit `ScalarCache` parameter; `CacheOK` characterizes every
  state such a cache can reach (it is only ever filled with values the
  cached pure functions computed themselves).
-/

/-! ### MD5, the external digest primitive, modelled concretely -/

/-- Modulus for 32-bit machine words. -/
def w32m : Nat := 4294967296

/-- Addition of 32-bit words. -/
def wadd (a b : Nat) : Nat := (a + b) % w32m

/-- Bitwise complement of a 32-bit word. -/
def wnot (a : Nat) : Nat := Nat.xor a 4294967295

/-- Left rotation of a 32-bit word by `s` bits. -/
def rotl (a s : Nat) : Nat := (a * 2 ^ s + a / 2 ^ (32 - s)) % w32m

/-- The 64 MD5 round constants. -/
def md5K : List Nat :=
  [0xd76aa478, 0xe8c7b756, 0x242070db, 0xc1bdceee,
   0xf57c0faf, 0x4787c62a, 0xa8304613, 0xfd469501,
   0x698098d8, 0x8b44f7af, 0xffff5bb1, 0x895cd7be,
   0x6b901122, 0xfd987193, 0xa679438e, 0x49b40821,
   0xf61e2562, 0xc040b340, 0x265e5a51, 0xe9b6c7aa,
   0xd62f105d, 0x02441453, 0xd8a1e681, 0xe7d3fbc8,
   0x21e1cde6, 0xc33707d6, 0xf4d50d87, 0x455a14ed,
   0xa9e3e905, 0xfcefa3f8, 0x676f02d9, 0x8d2a4c8a,
   0xfffa3942, 0x8771f681, 0x6d9d6122, 0xfde5380c,
   0xa4beea44, 0x4bdecfa9, 0xf6bb4b60, 0xbebfbc70,
   0x289b7ec6, 0xeaa127fa, 0xd4ef3085, 0x04881d05,
   0xd9d4d039, 0xe6db99e5, 0x1fa27cf8, 0xc4ac5665,
   0xf4292244, 0x432aff97, 0xab9423a7, 0xfc93a039,
   0x655b59c3, 0x8f0ccc92, 0xffeff47d, 0x85845dd1,
   0x6fa87e4f, 0xfe2ce6e0, 0xa3014314, 0x4e0811a1,
   0xf7537e82, 0xbd3af235, 0x2ad7d2bb, 0xeb86d391]

/-- The 64 MD5 per-round shift amounts. -/
def md5S : List Nat :=
  [7, 12, 17, 22, 7, 12, 17, 22, 7, 12, 17, 22, 7, 12, 17, 22,
   5, 9, 14, 20, 5, 9, 14, 20, 5, 9, 14, 20, 5, 9, 14, 20,
   4, 11, 16, 23, 4, 11, 16, 23, 4, 11, 16, 23, 4, 11, 16, 23,
   6, 10, 15, 21, 6, 10, 15, 21, 6, 10, 15, 21, 6, 10, 15, 21]

/-- One MD5 round on state `(a, b, c, d)` with message words `m`. -/
def md5Round (m : List Nat) (st : Nat × Nat × Nat × Nat) (i : Nat) : Nat × Nat × Nat × Nat :=
  let (a, b, c, d) := st
  let f :=
    if i < 16 then Nat.lor (Nat.land b c) (Nat.land (wnot b) d)
    else if i < 32 then Nat.lor (Nat.land d b) (Nat.land (wnot d) c)
    else if i < 48 then Nat.xor b (Nat.xor c d)
    else Nat.xor c (Nat.lor b (wnot d))
  let g :=
    if i < 16 then i
    else if i < 32 then (5 * i + 1) % 16
    else if i < 48 then (3 * i + 5) % 16
    else (7 * i) % 16
  let x := wadd (wadd a f) (wadd (md5K.getD i 0) (m.getD g 0))
  (d, wadd b (rotl x (md5S.getD i 0)), b, c)

/-- Process one 16-word chunk. -/
def md5Chunk (st : Nat × Nat × Nat × Nat) (m : List Nat) : Nat × Nat × Nat × Nat :=
  let (a, b, c, d) := (List.range 64).foldl (md5Round m) st
  (wadd st.1 a, wadd st.2.1 b, wadd st.2.2.1 c, wadd st.2.2.2 d)

/-- Group a padded byte list into little-endian 32-bit words. -/
def toWords : List Nat → List Nat
  | b0 :: b1 :: b2 :: b3 :: rest => (b0 + 256 * b1 + 65536 * b2 + 16777216 * b3) :: toWords rest
  | _ => []

/-- Fold the chunk compression over the word list, fuelled by the word count. -/
def md5Loop : Nat → (Nat × Nat × Nat × Nat) → List Nat → Nat × Nat × Nat × Nat
  | 0, st, _ => st
  | _ + 1, st, [] => st
  | fuel + 1, st, ws => md5Loop fuel (md5Chunk st (ws.take 16)) (ws.drop 16)

/-- Little-endian 4-byte rendering of a 32-bit word. -/
def le4 (m : Nat) : List Nat := [m % 256, m / 256 % 256, m / 65536 % 256, m / 16777216 % 256]

/-- Little-endian 8-byte rendering of a 64-bit length field. -/
def le8 (m : Nat) : List Nat := le4 (m % w32m) ++ le4 (m / w32m % w32m)

/-- The MD5 digest of a byte list: 16 output bytes.  Checked below against
the standard test vectors for the empty message and `"abc"`. -/
def md5 (msg : List Nat) : List Nat :=
  let n := msg.length
  let padded := msg ++ 128 :: List.replicate ((119 - n % 64) % 64) 0 ++ le8 ((8 * n) % 2 ^ 64)
  let st := md5Loop (toWords padded).length (0x67452301, 0xefcdab89, 0x98badcfe, 0x10325476)
    (toWords padded)
  le4 st.1 ++ le4 st.2.1 ++ le4 st.2.2.1 ++ le4 st.2.2.2

/-! ### UTF-8 encoding and Python string rendering helpers -/

/-- UTF-8 encoding of a single character (by code point). -/
def utf8Char (c : Char) : List Nat :=
  let n := c.toNat
  if n < 128 then [n]
  else if n < 2048 then [192 + n / 64, 128 + n % 64]
  else if n < 65536 then [224 + n / 4096, 128 + n / 64 % 64, 128 + n % 64]
  else [240 + n / 262144, 128 + n / 4096 % 64, 128 + n / 64 % 64, 128 + n % 64]

/-- UTF-8 encoding of a character list. -/
def utf8Bytes : List Char → List Nat
  | [] => []
  | c :: cs => utf8Char c ++ utf8Bytes cs

/-- UTF-8 bytes of a string, modelling Python's `str.encode("utf-8")`. -/
def strBytes (s : String) : List Nat := utf8Bytes s.data

/-- Code-point sequence of a string; Python compares strings by exactly
this sequence, lexicographically. -/
def strCodes (s : String) : List Nat := s.data.map Char.toNat

/-! ### Lexicographic byte order, modelling Python `bytes` comparison -/

/-- Lexicographic `≤` on byte lists (Python `bytes.__le__`). -/
def bytesLeB : List Nat → List Nat → Bool
  | [], _ => true
  | _ :: _, [] => false
  | a :: as, b :: bs => if a < b then true else if b < a then false else bytesLeB as bs

/-- Reversed byte order, the comparison behind `sorted(..., reverse=True)`. -/
def bytesGeB (a b : List Nat) : Bool := bytesLeB b a

/-- String `≤` by code points, the comparison behind `sorted(..., key=str)`. -/
def strLeB (a b : String) : Bool := bytesLeB (strCodes a) (strCodes b)

/-! ### Stable insertion sort, modelling Python's stable `sorted` -/

/-- Insert `x` in front of the first element not strictly below it; an
element equal under `le` stays behind `x`, which models the stability of
Python's `sorted` when `x` originates earlier in the input. -/
def insertS (le : α → α → Bool) (x : α) : List α → List α
  | [] => [x]
  | b :: bs => if le x b then x :: b :: bs else b :: insertS le x bs

/-- Stable sort by `le`, modelling Python's `sorted(l, ...)`. -/
def insSort (le : α → α → Bool) : List α → List α
  | [] => []
  | x :: xs => insertS le x (insSort le xs)

/-! ### The Python value model -/

/-- Result of invoking a handler or a `__hash_bytes__` capability: the
returned byte string, or the message of a raised exception. -/
inductive HRes where
  | ok (bs : List Nat)
  | raises (msg : String)
deriving DecidableEq

/-- An opaque (non-primitive, non-container) Python object, as far as the
hasher can observe it: its runtime type name, the names of its ancestor
classes (for `isinstance` checks), and its optional zero-argument
`__hash_bytes__` capability, which either returns bytes or raises. -/
structure OpaqueVal where
  tyName : String
  ancestors : List String
  hashBytes : Option HRes

mutual

/-- The universal input type of `Hasher.my_hash`.  A float is carried by
its decimal `str()` form, the only rendering of it the hasher reads; a
dict is its insertion-ordered entry list (`obj.items()`); a set or
frozenset is its iteration-ordered element list.  Child collections use
the mutual types `VList` and `VPairs` (isomorphic to `List Value` and
`List (Value × Value)` via `VList.toList`, `VPairs.toList`) so that the
whole development stays structurally recursive and executable. -/
inductive Value where
  | null
  | int (n : Int)
  | float (reprS : String)
  | bool (b : Bool)
  | str (s : String)
  | bytes (bs : List Nat)
  | list (xs : VList)
  | tuple (xs : VList)
  | dict (entries : VPairs)
  | set (xs : VList)
  | frozenset (xs : VList)
  | custom (o : OpaqueVal)

/-- A sequence of child values. -/
inductive VList where
  | nil
  | cons (hd : Value) (tl : VList)

/-- A sequence of key-value entries. -/
inductive VPairs where
  | nil
  | cons (key : Value) (val : Value) (tl : VPairs)

end

/-- The child values of a `VList`, as a Lean list. -/
def VList.toList : VList → List Value
  | .nil => []
  | .cons hd tl => hd :: VList.toList tl

/-- The entries of a `VPairs`, as a Lean list of pairs. -/
def VPairs.toList : VPairs → List (Value × Value)
  | .nil => []
  | .cons k v tl => (k, v) :: VPairs.toList tl

/-- Build a `VList` from a Lean list. -/
def VList.ofList : List Value → VList
  | [] => .nil
  | v :: tl => .cons v (VList.ofList tl)

/-- Build a `VPairs` from a Lean list of pairs. -/
def VPairs.ofList : List (Value × Value) → VPairs
  | [] => .nil
  | (k, v) :: tl => .cons k v (VPairs.ofList tl)

mutual

/-- Structural size of a value, used as traversal fuel: it strictly
bounds the nesting depth. -/
def vsize : Value → Nat
  | .null => 1
  | .int _ => 1
  | .float _ => 1
  | .bool _ => 1
  | .str _ => 1
  | .bytes _ => 1
  | .list xs => 1 + lsize xs
  | .tuple xs => 1 + lsize xs
  | .dict es => 1 + psize es
  | .set xs => 1 + lsize xs
  | .frozenset xs => 1 + lsize xs
  | .custom _ => 1

/-- Structural size of a child list. -/
def lsize : VList → Nat
  | .nil => 1
  | .cons hd tl => 1 + vsize hd + lsize tl

/-- Structural size of an entry list. -/
def psize : VPairs → Nat
  | .nil => 1
  | .cons k v tl => 1 + vsize k + vsize v + psize tl

end

/-! ### The type registry -/

/-- A registered handler: given the object, produce bytes or raise. -/
def Handler : Type := OpaqueVal → HRes

/-- The type registry contents: (type name, handler) pairs in
registration order, modelling `TypeRegistry._handlers`, a Python dict
keyed by type. -/
def Registry : Type := List (String × Handler)

/-- Python's `isinstance(obj, T)` for an opaque object: `T` is its exact
runtime type or one of its ancestors. -/
def instOf (o : OpaqueVal) (t : String) : Bool := t == o.tyName || o.ancestors.contains t

/-- Exact-type lookup in the registry dict
(`obj_type in self._handlers`). -/
def lookupType (reg : Registry) (t : String) : Option Handler :=
  match reg with
  | [] => none
  | (t2, h) :: rest => if t2 == t then some h else lookupType rest t

/-- Faithful translation of `TypeRegistry.get_handler`: the
`__hash_bytes__` capability always wins; else exact runtime type lookup;
else the first registered type, in registration order, that the object
is an instance of; else `none`. -/
def getHandler (reg : Registry) (o : OpaqueVal) : Option Handler :=
  match o.hashBytes with
  | some _ => some (fun o2 =>
      match o2.hashBytes with
      | some r => r
      | none => HRes.raises "no __hash_bytes__")
  | none =>
    match lookupType reg o.tyName with
    | some h => some h
    | none =>
      match reg.find? (fun e => instOf o e.1) with
      | some e => some e.2
      | none => none

/-! ### Python's str() rendering of values, the dict sort key -/

/-- Separator-joined rendering of fragments, for `pyReprF`. -/
def joinStr (sep : String) : List String → String
  | [] => ""
  | [s] => s
  | s :: rest => s ++ sep ++ joinStr sep rest

/-- Modelled from Python's builtin `repr()` (external to the repository;
the hasher calls `str` as `sorted(obj.items(), key=lambda x:
str(x[0]))`).  It renders `None`, booleans, numbers and containers the
way CPython prints them.  String quoting and bytes escaping are
simplified to a plain single-quoted form, and the memory address CPython
puts in the default object repr is omitted; the theorems below depend
only on this function being deterministic and on its exact output for
scalar keys. -/
def pyReprF : Nat → Value → String
  | 0, _ => ""
  | fuel + 1, v =>
    match v with
    | .null => "None"
    | .int n => toString n
    | .float s => s
    | .bool b => if b then "True" else "False"
    | .str s => "\x27" ++ s ++ "\x27"
    | .bytes bs => "b\x27" ++ String.mk (bs.map Char.ofNat) ++ "\x27"
    | .list xs => "[" ++ joinStr ", " (xs.toList.map (pyReprF fuel)) ++ "]"
    | .tuple (.cons x .nil) => "(" ++ pyReprF fuel x ++ ",)"
    | .tuple xs => "(" ++ joinStr ", " (xs.toList.map (pyReprF fuel)) ++ ")"
    | .dict es => "\x7b" ++ joinStr ", "
        (es.toList.map (fun kv => pyReprF fuel kv.1 ++ ": " ++ pyReprF fuel kv.2)) ++ "\x7d"
    | .set .nil => "set()"
    | .set xs => "\x7b" ++ joinStr ", " (xs.toList.map (pyReprF fuel)) ++ "\x7d"
    | .frozenset .nil => "frozenset()"
    | .frozenset xs => "frozenset(\x7b" ++ joinStr ", " (xs.toList.map (pyReprF fuel)) ++ "\x7d)"
    | .custom o => "<" ++ o.tyName ++ " object>"

/-- Python's `str(v)`: the raw content for strings, the repr otherwise
(`vsize v` strictly bounds the nesting depth, so the fuel suffices). -/
def pyStr (v : Value) : String :=
  match v with
  | .str s => s
  | _ => pyReprF (vsize v) v

/-- Python's `type(obj).__name__` for a modelled value. -/
def pyTypeName : Value → String
  | .null => "NoneType"
  | .int _ => "int"
  | .float _ => "float"
  | .bool _ => "bool"
  | .str _ => "str"
  | .bytes _ => "bytes"
  | .list _ => "list"
  | .tuple _ => "tuple"
  | .dict _ => "dict"
  | .set _ => "set"
  | .frozenset _ => "frozenset"
  | .custom o => o.tyName

/-! ### Type prefixes (the closed, versioned tag set of the hasher) -/

/-- Type prefix `b"\x00"` for `None`. -/
def TYPE_NONE : List Nat := [0]

/-- Type prefix `b"\x01"`, shared by int, float and bool. -/
def TYPE_INT : List Nat := [1]

/-- Type prefix `b"\x02"` for str. -/
def TYPE_STR : List Nat := [2]

/-- Type prefix `b"\x03"` for bytes. -/
def TYPE_BYTES : List Nat := [3]

/-- Container prefix `b"list"`. -/
def TYPE_LIST : List Nat := strBytes "list"

/-- Container prefix `b"tuple"`. -/
def TYPE_TUPLE : List Nat := strBytes "tuple"

/-- Container prefix `b"dict"`. -/
def TYPE_DICT : List Nat := strBytes "dict"

/-- Container prefix `b"set"`. -/
def TYPE_SET : List Nat := strBytes "set"

/-- Container prefix `b"frozenset"`. -/
def TYPE_FROZENSET : List Nat := strBytes "frozenset"

/-- Wrapper prefix `b"custom"` for registry-handled values. -/
def TYPE_CUSTOM : List Nat := strBytes "custom"

/-! ### Errors, caches, and the engine -/

/-- Python-level failures of `my_hash`, all raised as `TypeError`: an
unsupported type (carrying `type(obj).__name__`), or a handler failure
(carrying the type name and the message of the original exception).
`depthLimit` stands for interpreter stack exhaustion; the engine never
produces it at the fuel `vsize v` used by `myHashC`. -/
inductive PyErr where
  | unsupported (tyName : String)
  | handlerFailed (tyName : String) (msg : String)
  | depthLimit
deriving DecidableEq

/-- State of the process-wide `lru_cache` maps of `_global_hash_string`,
`_global_hash_int` and `_global_hash_float`.  The float cache is keyed
by the float's decimal repr, our representation of the float value. -/
structure ScalarCache where
  strC : String → Option (List Nat)
  intC : Int → Option (List Nat)
  floatC : String → Option (List Nat)

/-- The empty scalar cache (a fresh process). -/
def emptyCache : ScalarCache :=
  ⟨fun _ => none, fun _ => none, fun _ => none⟩

/-- The cache states reachable by `lru_cache` on the three pure global
hash functions: any present entry holds exactly what the cached function
computes for that key.  Least-recently-used eviction only removes
entries, so every reachable state satisfies this. -/
def CacheOK (c : ScalarCache) : Prop :=
  (∀ s d, c.strC s = some d → d = md5 (TYPE_STR ++ strBytes s)) ∧
  (∀ n d, c.intC n = some d → d = md5 (TYPE_INT ++ strBytes (toString n))) ∧
  (∀ s d, c.floatC s = some d → d = md5 (TYPE_INT ++ strBytes s))

/-- Return the cached digest when present, else the computed one. -/
def cacheGet (lookup : Option (List Nat)) (compute : List Nat) : List Nat :=
  match lookup with
  | some d => d
  | none => compute

/-- Translation of `Hasher._hash_primitive`: digests of the scalar
types, `none` when the value is not a recognized scalar.  The source
checks str, then int (excluding bool), then float, then bool, then
bytes; the constructors here are disjoint, so the order is immaterial.
The boolean payload is `struct.pack(">?", obj)`, one byte 0 or 1. -/
def hashPrimC (c : ScalarCache) : Value → Option (List Nat)
  | .null => some (md5 TYPE_NONE)
  | .str s => some (cacheGet (c.strC s) (md5 (TYPE_STR ++ strBytes s)))
  | .int n => some (cacheGet (c.intC n) (md5 (TYPE_INT ++ strBytes (toString n))))
  | .float s => some (cacheGet (c.floatC s) (md5 (TYPE_INT ++ strBytes s)))
  | .bool b => some (md5 (TYPE_INT ++ [if b then 1 else 0]))
  | .bytes bs => some (md5 (TYPE_BYTES ++ bs))
  | _ => none

/-- `b",".join` of sibling digests: comma (0x2C) is the only separator. -/
def joinComma : List (List Nat) → List Nat
  | [] => []
  | [d] => d
  | d :: rest => d ++ 44 :: joinComma rest

/-- Sequence child computations left to right, propagating the first
exception, as the engine's child evaluation does. -/
def seqE : List (Except PyErr (List Nat)) → Except PyErr (List (List Nat))
  | [] => .ok []
  | .error e :: _ => .error e
  | .ok d :: rest =>
    match seqE rest with
    | .error e => .error e
    | .ok ds => .ok (d :: ds)

/-- Digest one dict entry: key digest concatenated with value digest,
with no separator inside the pair (the dict arm of
`Hasher._finalize_container`). -/
def pairHash (rec : Value → Except PyErr (List Nat)) (kv : Value × Value) :
    Except PyErr (List Nat) :=
  match rec kv.1 with
  | .error e => .error e
  | .ok kd =>
    match rec kv.2 with
    | .error e => .error e
    | .ok vd => .ok (kd ++ vd)

/-- The comparison behind `sorted(obj.items(), key=lambda x: str(x[0]))`. -/
def dictLe (a b : Value × Value) : Bool := strLeB (pyStr a.1) (pyStr b.1)

/-- One traversal step for containers and registry-routed values, `rec`
computing child digests: the combination rules of
`Hasher._process_container` and `Hasher._finalize_container`, and the
registry fallback of `Hasher.my_hash`.  The list arm sorts child digests
in descending byte order; the set arms sort ascending; the tuple arm
keeps index order; the dict arm sorts entries by `str(key)` (stably) and
joins each key digest directly with its value digest.
(`Hasher._try_cache_immutable` always returns `None` in the source and
is therefore not modelled.)  The final catch-all arm is unreachable:
scalars are consumed by `hashPrimC` before this function is consulted. -/
def containerStep (reg : Registry) (rec : Value → Except PyErr (List Nat)) :
    Value → Except PyErr (List Nat)
  | .list xs =>
    match seqE (xs.toList.map rec) with
    | .error e => .error e
    | .ok ds => .ok (md5 (TYPE_LIST ++ joinComma (insSort bytesGeB ds)))
  | .tuple xs =>
    match seqE (xs.toList.map rec) with
    | .error e => .error e
    | .ok ds => .ok (md5 (TYPE_TUPLE ++ joinComma ds))
  | .dict es =>
    match seqE ((insSort dictLe es.toList).map (pairHash rec)) with
    | .error e => .error e
    | .ok ps => .ok (md5 (TYPE_DICT ++ joinComma ps))
  | .set xs =>
    match seqE (xs.toList.map rec) with
    | .error e => .error e
    | .ok ds => .ok (md5 (TYPE_SET ++ joinComma (insSort bytesLeB ds)))
  | .frozenset xs =>
    match seqE (xs.toList.map rec) with
    | .error e => .error e
    | .ok ds => .ok (md5 (TYPE_FROZENSET ++ joinComma (insSort bytesLeB ds)))
  | .custom o =>
    match getHandler reg o with
    | none => .error (.unsupported o.tyName)
    | some h =>
      match h o with
      | .ok bs => .ok (md5 (TYPE_CUSTOM ++ bs))
      | .raises m => .error (.handlerFailed o.tyName m)
  | v => .error (.unsupported (pyTypeName v))

/-- One full step of `Hasher.my_hash` on one value: primitives first,
then containers and the registry fallback. -/
def hashStep (reg : Registry) (c : ScalarCache) (rec : Value → Except PyErr (List Nat))
    (v : Value) : Except PyErr (List Nat) :=
  match hashPrimC c v with
  | some d => .ok d
  | none => containerStep reg rec v

/-- The hashing engine with explicit fuel bounding the nesting depth it
can traverse, so that the definition is structurally recursive and
kernel-executable.  `myHashF reg c fuel` agrees with `Hasher.my_hash` on
every value of structural size at most `fuel` (`myHashF_irrel` below). -/
def myHashF (reg : Registry) (c : ScalarCache) : Nat → Value → Except PyErr (List Nat)
  | 0, _ => .error .depthLimit
  | fuel + 1, v => hashStep reg c (myHashF reg c fuel) v

/-- `Hasher.my_hash` with explicit registry and scalar-cache state:
`vsize v` strictly bounds the nesting depth, so the fuel never runs out
(`myHashC_unfold` below). -/
def myHashC (reg : Registry) (c : ScalarCache) (v : Value) : Except PyErr (List Nat) :=
  myHashF reg c (vsize v) v

/-- `compute_digest` (the public `my_hash`) against a given registry, in
a fresh process (empty scalar caches; the cache state never matters by
the cache-independence theorem below). -/
def myHash (reg : Registry) (v : Value) : Except PyErr (List Nat) :=
  myHashC reg emptyCache v

/-- Translation of `Hasher._fast_path`: primitives, the five empty
containers, and one-element lists and tuples holding a primitive. -/
def fastPath (c : ScalarCache) (v : Value) : Option (List Nat) :=
  match hashPrimC c v with
  | some d => some d
  | none =>
    match v with
    | .list .nil => some (md5 TYPE_LIST)
    | .tuple .nil => some (md5 TYPE_TUPLE)
    | .dict .nil => some (md5 TYPE_DICT)
    | .set .nil => some (md5 TYPE_SET)
    | .frozenset .nil => some (md5 TYPE_FROZENSET)
    | .list (.cons x .nil) =>
      match hashPrimC c x with
      | some h => some (md5 (TYPE_LIST ++ h))
      | none => none
    | .tuple (.cons x .nil) =>
      match hashPrimC c x with
      | some h => some (md5 (TYPE_TUPLE ++ h))
      | none => none
    | _ => none

/-- A mapping nested `n` levels deep by successive single-key wrapping:
`nestDict 0 = 0` and `nestDict (n+1)` is the dict binding `"k"` to
`nestDict n`. -/
def nestDict : Nat → Value
  | 0 => .int 0
  | n + 1 => .dict (.cons (.str "k") (nestDict n) .nil)

/-- The digest carried by a successful result (dummy value on error). -/
def digestOf : Except PyErr (List Nat) → List Nat
  | .ok d => d
  | .error _ => []

/-- Whether a computation succeeded. -/
def isOkE : Except PyErr α → Bool
  | .ok _ => true
  | .error _ => false

set_option maxRecDepth 80000

theorem insertS_perm (le : α → α → Bool) (x : α) (l : List α) :
    (insertS le x l).Perm (x :: l) := by
  induction l with
  | nil => exact List.Perm.refl _
  | cons b bs ih =>
    show (if le x b then x :: b :: bs else b :: insertS le x bs).Perm (x :: b :: bs)
    by_cases h : le x b
    · simp [h]
    · simp only [h, if_neg, Bool.false_eq_true, not_false_iff]
      exact ((ih.cons b).trans (List.Perm.swap x b bs)).symm.symm

theorem insSort_perm (le : α → α → Bool) (l : List α) : (insSort le l).Perm l := by
  induction l with
  | nil => exact List.Perm.refl _
  | cons x xs ih => exact (insertS_perm le x (insSort le xs)).trans (ih.cons x)

theorem insSort_mem (le : α → α → Bool) (l : List α) (a : α) :
    a ∈ insSort le l ↔ a ∈ l :=
  (insSort_perm le l).mem_iff

theorem insertS_pairwise (le : α → α → Bool)
    (htot : ∀ a b, le a b = true ∨ le b a = true)
    (htrans : ∀ a b c, le a b = true → le b c = true → le a c = true)
    (x : α) (l : List α) (hl : l.Pairwise (fun a b => le a b = true)) :
    (insertS le x l).Pairwise (fun a b => le a b = true) := by
  induction l with
  | nil => simp [insertS]
  | cons b bs ih =>
    rcases hl with _ | ⟨hb, hbs⟩
    show (if le x b then x :: b :: bs else b :: insertS le x bs).Pairwise _
    by_cases h : le x b
    · simp only [h, if_pos]
      refine List.Pairwise.cons ?_ (List.Pairwise.cons hb hbs)
      intro y hy
      rcases List.mem_cons.mp hy with rfl | hy
      · exact h
      · exact htrans x b y h (hb y hy)
    · simp only [h, if_neg, Bool.false_eq_true, not_false_iff]
      refine List.Pairwise.cons ?_ (ih hbs)
      intro y hy
      have hy2 := (insertS_perm le x bs).mem_iff.mp hy
      rcases List.mem_cons.mp hy2 with rfl | hy3
      · rcases htot y b with hc | hc
        · exact absurd hc h
        · exact hc
      · exact hb y hy3

theorem insSort_pairwise (le : α → α → Bool)
    (htot : ∀ a b, le a b = true ∨ le b a = true)
    (htrans : ∀ a b c, le a b = true → le b c = true → le a c = true)
    (l : List α) : (insSort le l).Pairwise (fun a b => le a b = true) := by
  induction l with
  | nil => simp [insSort]
  | cons x xs ih => exact insertS_pairwise le htot htrans x (insSort le xs) ih

/-- Two sorted lists that are permutations of each other, over a relation
antisymmetric on their elements, are equal.  This is the key fact behind
every order-independence property of the hasher. -/
theorem sorted_perm_eq {R : α → α → Prop} :
    ∀ (l1 l2 : List α), l1.Perm l2 → l1.Pairwise R → l2.Pairwise R →
      (∀ a b, a ∈ l1 → b ∈ l1 → R a b → R b a → a = b) → l1 = l2 := by
  intro l1
  induction l1 with
  | nil =>
    intro l2 hp _ _ _
    exact (List.Perm.nil_eq hp).symm.symm
  | cons a t1 ih =>
    intro l2 hp hs1 hs2 hanti
    rcases l2 with _ | ⟨b, t2⟩
    · exact absurd hp.symm (by simp)
    rcases hs1 with _ | ⟨ha, ht1⟩
    rcases hs2 with _ | ⟨hb, ht2⟩
    have hab : a = b := by
      by_cases h : a = b
      · exact h
      · have hael2 : a ∈ b :: t2 := hp.mem_iff.mp (by simp)
        have hbel1 : b ∈ a :: t1 := hp.mem_iff.mpr (by simp)
        have hat2 : a ∈ t2 := by
          rcases List.mem_cons.mp hael2 with heq | hm
          · exact absurd heq h
          · assumption
        have hbt1 : b ∈ t1 := by
          rcases List.mem_cons.mp hbel1 with heq | hm
          · exact absurd heq (fun hh => h hh.symm)
          · assumption
        exact hanti a b (by simp) (by simp [hbt1]) (ha b hbt1) (hb a hat2)
    subst hab
    have hpt : t1.Perm t2 := hp.cons_inv
    have := ih t2 hpt ht1 ht2 (fun x y hx hy => hanti x y (by simp [hx]) (by simp [hy]))
    rw [this]

theorem bytesLeB_total : ∀ a b : List Nat, bytesLeB a b = true ∨ bytesLeB b a = true := by
  intro a
  induction a with
  | nil => intro b; left; rfl
  | cons x xs ih =>
    intro b
    rcases b with _ | ⟨y, ys⟩
    · right; rfl
    · show (if x < y then true else if y < x then false else bytesLeB xs ys) = true ∨
        (if y < x then true else if x < y then false else bytesLeB ys xs) = true
      rcases Nat.lt_trichotomy x y with h | h | h
      · left; simp [h]
      · subst h
        simp only [Nat.lt_irrefl, if_neg, not_false_iff]
        exact ih ys
      · right; simp [h]

theorem bytesLeB_trans :
    ∀ a b c : List Nat, bytesLeB a b = true → bytesLeB b c = true → bytesLeB a c = true := by
  intro a
  induction a with
  | nil => intro b c _ _; rfl
  | cons x xs ih =>
    intro b c hab hbc
    rcases b with _ | ⟨y, ys⟩
    · exact absurd hab (by simp [bytesLeB])
    rcases c with _ | ⟨z, zs⟩
    · exact absurd hbc (by simp [bytesLeB])
    show (if x < z then true else if z < x then false else bytesLeB xs zs) = true
    have hab2 : (if x < y then true else if y < x then false else bytesLeB xs ys) = true := hab
    have hbc2 : (if y < z then true else if z < y then false else bytesLeB ys zs) = true := hbc
    rcases Nat.lt_trichotomy x y with hxy | hxy | hxy
    · rcases Nat.lt_trichotomy y z with hyz | hyz | hyz
      · simp [Nat.lt_trans hxy hyz]
      · subst hyz; simp [hxy]
      · simp [Nat.lt_asymm hyz, hyz] at hbc2
    · subst hxy
      rcases Nat.lt_trichotomy x z with h | h | h
      · simp [h]
      · subst h
        simp only [Nat.lt_irrefl, if_neg, not_false_iff]
        simp only [Nat.lt_irrefl, if_neg, not_false_iff] at hab2 hbc2
        exact ih ys zs hab2 hbc2
      · simp [Nat.lt_asymm h, h] at hbc2
    · simp [hxy, Nat.lt_asymm hxy] at hab2

theorem bytesLeB_antisymm :
    ∀ a b : List Nat, bytesLeB a b = true → bytesLeB b a = true → a = b := by
  intro a
  induction a with
  | nil =>
    intro b _ hba
    rcases b with _ | ⟨y, ys⟩
    · rfl
    · exact absurd hba (by simp [bytesLeB])
  | cons x xs ih =>
    intro b hab hba
    rcases b with _ | ⟨y, ys⟩
    · exact absurd hab (by simp [bytesLeB])
    have hab2 : (if x < y then true else if y < x then false else bytesLeB xs ys) = true := hab
    have hba2 : (if y < x then true else if x < y then false else bytesLeB ys xs) = true := hba
    rcases Nat.lt_trichotomy x y with h | h | h
    · simp [h, Nat.lt_asymm h] at hba2
    · subst h
      simp only [Nat.lt_irrefl, if_neg, not_false_iff] at hab2 hba2
      rw [ih ys hab2 hba2]
    · simp [h, Nat.lt_asymm h] at hab2

theorem strCodes_inj (a b : String) (h : strCodes a = strCodes b) : a = b := by
  have hdata : a.data = b.data := by
    refine List.map_injective_iff.mpr ?_ h
    intro c1 c2 hc
    have := congrArg Char.ofNat hc
    rwa [Char.ofNat_toNat, Char.ofNat_toNat] at this
  cases a; cases b
  exact congrArg String.mk hdata

theorem strLeB_total : ∀ a b : String, strLeB a b = true ∨ strLeB b a = true := by
  intro a b; exact bytesLeB_total (strCodes a) (strCodes b)

theorem strLeB_trans :
    ∀ a b c : String, strLeB a b = true → strLeB b c = true → strLeB a c = true := by
  intro a b c hab hbc; exact bytesLeB_trans _ _ _ hab hbc

theorem strLeB_antisymm (a b : String) (hab : strLeB a b = true) (hba : strLeB b a = true) :
    a = b :=
  strCodes_inj a b (bytesLeB_antisymm _ _ hab hba)

theorem le4_length (m : Nat) : (le4 m).length = 4 := rfl

theorem md5_length (msg : List Nat) : (md5 msg).length = 16 := by
  show (le4 _ ++ le4 _ ++ le4 _ ++ le4 _).length = 16
  simp [le4_length]

/-- The standard MD5 test vector for the empty message,
`d41d8cd98f00b204e9800998ecf8427e`. -/
theorem md5_empty_vector :
    md5 [] = [0xd4, 0x1d, 0x8c, 0xd9, 0x8f, 0x00, 0xb2, 0x04,
              0xe9, 0x80, 0x09, 0x98, 0xec, 0xf8, 0x42, 0x7e] := by decide

/-- The standard MD5 test vector for `"abc"`,
`900150983cd24fb0d6963f7d28e17f72`. -/
theorem md5_abc_vector :
    md5 (strBytes "abc") = [0x90, 0x01, 0x50, 0x98, 0x3c, 0xd2, 0x4f, 0xb0,
                            0xd6, 0x96, 0x3f, 0x7d, 0x28, 0xe1, 0x7f, 0x72] := by decide

theorem vsize_pos (v : Value) : 0 < vsize v := by
  cases v <;> simp [vsize]

theorem lsize_mem (xs : VList) : ∀ v ∈ xs.toList, vsize v < lsize xs := by
  match xs with
  | .nil => intro v h; simp [VList.toList] at h
  | .cons hd tl =>
    intro v h
    rcases List.mem_cons.mp h with rfl | hm
    · simp [lsize]; omega
    · have := lsize_mem tl v hm
      simp [lsize]; omega

theorem psize_mem (es : VPairs) :
    ∀ kv ∈ es.toList, vsize kv.1 < psize es ∧ vsize kv.2 < psize es := by
  match es with
  | .nil => intro kv h; simp [VPairs.toList] at h
  | .cons k v tl =>
    intro kv h
    rcases List.mem_cons.mp h with rfl | hm
    · simp [psize]; omega
    · have := psize_mem tl kv hm
      simp [psize]; omega

theorem toList_ofList (l : List Value) : (VList.ofList l).toList = l := by
  induction l with
  | nil => rfl
  | cons v tl ih => simp [VList.ofList, VList.toList, ih]

theorem toPairs_ofPairs (l : List (Value × Value)) : (VPairs.ofList l).toList = l := by
  induction l with
  | nil => rfl
  | cons kv tl ih =>
    rcases kv with ⟨k, v⟩
    simp [VPairs.ofList, VPairs.toList, ih]

/-! ### Basic facts about the plumbing -/

theorem ok_of_parts (r : Except PyErr (List Nat)) (D : List Nat)
    (h1 : isOkE r = true) (h2 : digestOf r = D) : r = .ok D := by
  cases r with
  | ok d => rw [← h2]; rfl
  | error e => exact absurd h1 (by simp [isOkE])

theorem okNe (a b : List Nat) (h : a ≠ b) :
    (Except.ok a : Except PyErr (List Nat)) ≠ .ok b := by
  intro hab
  cases hab
  exact h rfl

theorem seqE_ok_shape : ∀ (l : List (Except PyErr (List Nat))) (ds : List (List Nat)),
    seqE l = .ok ds → l = ds.map Except.ok := by
  intro l
  induction l with
  | nil =>
    intro ds h
    have h2 : (Except.ok [] : Except PyErr (List (List Nat))) = .ok ds := h
    cases h2
    rfl
  | cons e rest ih =>
    intro ds h
    match e with
    | .error e2 => exact absurd h (by simp [seqE])
    | .ok d =>
      have heq : seqE (.ok d :: rest) = match seqE rest with
          | .error e => .error e
          | .ok ds2 => .ok (d :: ds2) := rfl
      rw [heq] at h
      cases hrest : seqE rest with
      | error e2 => rw [hrest] at h; exact absurd h (by simp)
      | ok ds2 =>
        rw [hrest] at h
        have h2 : (Except.ok (d :: ds2) : Except PyErr (List (List Nat))) = .ok ds := h
        cases h2
        rw [List.map_cons, ih ds2 hrest]

theorem seqE_all_ok : ∀ (l : List (Except PyErr (List Nat))),
    (∀ e ∈ l, isOkE e = true) → seqE l = .ok (l.map digestOf) := by
  intro l
  induction l with
  | nil => intro _; rfl
  | cons e rest ih =>
    intro hall
    match e with
    | .error e2 =>
      have h1 := hall (.error e2) (by simp)
      exact absurd h1 (by simp [isOkE])
    | .ok d =>
      have heq : seqE (.ok d :: rest) = match seqE rest with
          | .error e => .error e
          | .ok ds2 => .ok (d :: ds2) := rfl
      rw [heq, ih (fun x hx => hall x (by simp [hx]))]
      rfl

theorem seqE_isOk (l : List (Except PyErr (List Nat))) :
    isOkE (seqE l) = true ↔ ∀ e ∈ l, isOkE e = true := by
  constructor
  · intro h
    cases hs : seqE l with
    | error e2 => rw [hs] at h; exact absurd h (by simp [isOkE])
    | ok ds =>
      have hshape := seqE_ok_shape l ds hs
      intro e he
      rw [hshape] at he
      rcases List.mem_map.mp he with ⟨d, _, rfl⟩
      rfl
  · intro h
    rw [seqE_all_ok l h]
    rfl

theorem seqE_perm (l l2 : List (Except PyErr (List Nat))) (hp : l.Perm l2)
    (ds : List (List Nat)) (h : seqE l = .ok ds) :
    seqE l2 = .ok (l2.map digestOf) ∧ ds.Perm (l2.map digestOf) := by
  have hshape := seqE_ok_shape l ds h
  have hall2 : ∀ e ∈ l2, isOkE e = true := by
    intro e he
    have hel : e ∈ l := hp.mem_iff.mpr he
    rw [hshape] at hel
    rcases List.mem_map.mp hel with ⟨d, _, rfl⟩
    rfl
  refine ⟨seqE_all_ok l2 hall2, ?_⟩
  have hds : ds = l.map digestOf := by
    rw [hshape, List.map_map]
    have : (digestOf ∘ Except.ok) = id := by
      funext d; rfl
    rw [this, List.map_id]
  rw [hds]
  exact hp.map digestOf

theorem pairHash_isOk (rec : Value → Except PyErr (List Nat)) (kv : Value × Value) :
    isOkE (pairHash rec kv) = true ↔ isOkE (rec kv.1) = true ∧ isOkE (rec kv.2) = true := by
  unfold pairHash
  cases h1 : rec kv.1 with
  | error e => simp [isOkE]
  | ok kd =>
    cases h2 : rec kv.2 with
    | error e => simp [isOkE]
    | ok vd => simp [isOkE]

/-! ### Congruence, fuel irrelevance, and the unfolding equation -/

theorem containerStep_congr (reg : Registry) (rec1 rec2 : Value → Except PyErr (List Nat))
    (v : Value) (h : ∀ x, vsize x < vsize v → rec1 x = rec2 x) :
    containerStep reg rec1 v = containerStep reg rec2 v := by
  cases v with
  | list xs =>
    have hm : xs.toList.map rec1 = xs.toList.map rec2 :=
      List.map_congr_left (fun x hx =>
        h x (by have := lsize_mem xs x hx; simp [vsize]; omega))
    simp only [containerStep, hm]
  | tuple xs =>
    have hm : xs.toList.map rec1 = xs.toList.map rec2 :=
      List.map_congr_left (fun x hx =>
        h x (by have := lsize_mem xs x hx; simp [vsize]; omega))
    simp only [containerStep, hm]
  | set xs =>
    have hm : xs.toList.map rec1 = xs.toList.map rec2 :=
      List.map_congr_left (fun x hx =>
        h x (by have := lsize_mem xs x hx; simp [vsize]; omega))
    simp only [containerStep, hm]
  | frozenset xs =>
    have hm : xs.toList.map rec1 = xs.toList.map rec2 :=
      List.map_congr_left (fun x hx =>
        h x (by have := lsize_mem xs x hx; simp [vsize]; omega))
    simp only [containerStep, hm]
  | dict es =>
    have hm : (insSort dictLe es.toList).map (pairHash rec1)
        = (insSort dictLe es.toList).map (pairHash rec2) := by
      refine List.map_congr_left (fun kv hkv => ?_)
      have hkv2 : kv ∈ es.toList := (insSort_mem dictLe es.toList kv).mp hkv
      have hks := psize_mem es kv hkv2
      unfold pairHash
      rw [h kv.1 (by simp [vsize]; omega), h kv.2 (by simp [vsize]; omega)]
    simp only [containerStep, hm]
  | null => rfl
  | int n => rfl
  | float s => rfl
  | bool b => rfl
  | str s => rfl
  | bytes bs => rfl
  | custom o => rfl

theorem hashStep_congr (reg : Registry) (c : ScalarCache)
    (rec1 rec2 : Value → Except PyErr (List Nat)) (v : Value)
    (h : ∀ x, vsize x < vsize v → rec1 x = rec2 x) :
    hashStep reg c rec1 v = hashStep reg c rec2 v := by
  unfold hashStep
  cases hp : hashPrimC c v with
  | some d => rfl
  | none => exact containerStep_congr reg rec1 rec2 v h

theorem myHashF_irrel (reg : Registry) (c : ScalarCache) :
    ∀ (fuel : Nat) (v : Value), vsize v ≤ fuel →
      myHashF reg c fuel v = myHashF reg c (vsize v) v := by
  intro fuel
  induction fuel using Nat.strong_induction_on with
  | _ fuel ih =>
    intro v hv
    rcases fuel with _ | f
    · have := vsize_pos v; omega
    · obtain ⟨s, hs⟩ : ∃ s, vsize v = s + 1 := ⟨vsize v - 1, by have := vsize_pos v; omega⟩
      rw [hs]
      show hashStep reg c (myHashF reg c f) v = hashStep reg c (myHashF reg c s) v
      refine hashStep_congr reg c _ _ v (fun x hx => ?_)
      rw [ih f (by omega) x (by omega), ih s (by omega) x (by omega)]

theorem myHashC_unfold (reg : Registry) (c : ScalarCache) (v : Value) :
    myHashC reg c v = hashStep reg c (myHashC reg c) v := by
  unfold myHashC
  obtain ⟨s, hs⟩ : ∃ s, vsize v = s + 1 := ⟨vsize v - 1, by have := vsize_pos v; omega⟩
  rw [hs]
  show hashStep reg c (myHashF reg c s) v = hashStep reg c (fun x => myHashF reg c (vsize x) x) v
  refine hashStep_congr reg c _ _ v (fun x hx => ?_)
  exact myHashF_irrel reg c s x (by omega)

/-! ### Per-constructor evaluation equations for the engine -/

theorem myHashC_nullE (reg : Registry) (c : ScalarCache) :
    myHashC reg c .null = .ok (md5 TYPE_NONE) := by
  rw [myHashC_unfold]; rfl

theorem myHashC_intE (reg : Registry) (c : ScalarCache) (n : Int) :
    myHashC reg c (.int n) = .ok (cacheGet (c.intC n) (md5 (TYPE_INT ++ strBytes (toString n)))) := by
  rw [myHashC_unfold]; rfl

theorem myHashC_floatE (reg : Registry) (c : ScalarCache) (s : String) :
    myHashC reg c (.float s) = .ok (cacheGet (c.floatC s) (md5 (TYPE_INT ++ strBytes s))) := by
  rw [myHashC_unfold]; rfl

theorem myHashC_boolE (reg : Registry) (c : ScalarCache) (b : Bool) :
    myHashC reg c (.bool b) = .ok (md5 (TYPE_INT ++ [if b then 1 else 0])) := by
  rw [myHashC_unfold]; rfl

theorem myHashC_strE (reg : Registry) (c : ScalarCache) (s : String) :
    myHashC reg c (.str s) = .ok (cacheGet (c.strC s) (md5 (TYPE_STR ++ strBytes s))) := by
  rw [myHashC_unfold]; rfl

theorem myHashC_bytesE (reg : Registry) (c : ScalarCache) (bs : List Nat) :
    myHashC reg c (.bytes bs) = .ok (md5 (TYPE_BYTES ++ bs)) := by
  rw [myHashC_unfold]; rfl

theorem myHashC_listE (reg : Registry) (c : ScalarCache) (xs : VList) :
    myHashC reg c (.list xs) =
      match seqE (xs.toList.map (myHashC reg c)) with
      | .error e => .error e
      | .ok ds => .ok (md5 (TYPE_LIST ++ joinComma (insSort bytesGeB ds))) := by
  rw [myHashC_unfold]; rfl

theorem myHashC_tupleE (reg : Registry) (c : ScalarCache) (xs : VList) :
    myHashC reg c (.tuple xs) =
      match seqE (xs.toList.map (myHashC reg c)) with
      | .error e => .error e
      | .ok ds => .ok (md5 (TYPE_TUPLE ++ joinComma ds)) := by
  rw [myHashC_unfold]; rfl

theorem myHashC_dictE (reg : Registry) (c : ScalarCache) (es : VPairs) :
    myHashC reg c (.dict es) =
      match seqE ((insSort dictLe es.toList).map (pairHash (myHashC reg c))) with
      | .error e => .error e
      | .ok ps => .ok (md5 (TYPE_DICT ++ joinComma ps)) := by
  rw [myHashC_unfold]; rfl

theorem myHashC_setE (reg : Registry) (c : ScalarCache) (xs : VList) :
    myHashC reg c (.set xs) =
      match seqE (xs.toList.map (myHashC reg c)) with
      | .error e => .error e
      | .ok ds => .ok (md5 (TYPE_SET ++ joinComma (insSort bytesLeB ds))) := by
  rw [myHashC_unfold]; rfl

theorem myHashC_frozensetE (reg : Registry) (c : ScalarCache) (xs : VList) :
    myHashC reg c (.frozenset xs) =
      match seqE (xs.toList.map (myHashC reg c)) with
      | .error e => .error e
      | .ok ds => .ok (md5 (TYPE_FROZENSET ++ joinComma (insSort bytesLeB ds))) := by
  rw [myHashC_unfold]; rfl

theorem myHashC_customE (reg : Registry) (c : ScalarCache) (o : OpaqueVal) :
    myHashC reg c (.custom o) =
      match getHandler reg o with
      | none => .error (.unsupported o.tyName)
      | some h =>
        match h o with
        | .ok bs => .ok (md5 (TYPE_CUSTOM ++ bs))
        | .raises m => .error (.handlerFailed o.tyName m) := by
  rw [myHashC_unfold]; rfl

/-! ### Helper lemmas at the level of the public entry point -/

theorem bytesGeB_total : ∀ a b : List Nat, bytesGeB a b = true ∨ bytesGeB b a = true := by
  intro a b
  rcases bytesLeB_total b a with h | h
  · left; exact h
  · right; exact h

theorem bytesGeB_trans :
    ∀ a b c : List Nat, bytesGeB a b = true → bytesGeB b c = true → bytesGeB a c = true := by
  intro a b c hab hbc
  exact bytesLeB_trans c b a hbc hab

theorem bytesGeB_antisymm :
    ∀ a b : List Nat, bytesGeB a b = true → bytesGeB b a = true → a = b := by
  intro a b hab hba
  exact bytesLeB_antisymm a b hba hab

theorem dictLe_total : ∀ a b : Value × Value, dictLe a b = true ∨ dictLe b a = true := by
  intro a b
  exact strLeB_total (pyStr a.1) (pyStr b.1)

theorem dictLe_trans : ∀ a b c : Value × Value,
    dictLe a b = true → dictLe b c = true → dictLe a c = true := by
  intro a b c hab hbc
  exact strLeB_trans _ _ _ hab hbc

theorem insSort_perm_eq (le : α → α → Bool)
    (htot : ∀ a b, le a b = true ∨ le b a = true)
    (htrans : ∀ a b c, le a b = true → le b c = true → le a c = true)
    (l l2 : List α) (hp : l.Perm l2)
    (hanti : ∀ a b, a ∈ l → b ∈ l → le a b = true → le b a = true → a = b) :
    insSort le l = insSort le l2 := by
  refine sorted_perm_eq (R := fun a b => le a b = true) _ _
    (((insSort_perm le l).trans hp).trans (insSort_perm le l2).symm)
    (insSort_pairwise le htot htrans l) (insSort_pairwise le htot htrans l2) ?_
  intro a b ha hb
  exact hanti a b ((insSort_mem le l a).mp ha) ((insSort_mem le l b).mp hb)

theorem myHash_listE (reg : Registry) (xs : List Value) :
    myHash reg (.list (VList.ofList xs)) =
      match seqE (xs.map (myHash reg)) with
      | .error e => .error e
      | .ok ds => .ok (md5 (TYPE_LIST ++ joinComma (insSort bytesGeB ds))) := by
  show myHashC reg emptyCache _ = _
  rw [myHashC_listE, toList_ofList]
  rfl

theorem myHash_tupleE (reg : Registry) (xs : List Value) :
    myHash reg (.tuple (VList.ofList xs)) =
      match seqE (xs.map (myHash reg)) with
      | .error e => .error e
      | .ok ds => .ok (md5 (TYPE_TUPLE ++ joinComma ds)) := by
  show myHashC reg emptyCache _ = _
  rw [myHashC_tupleE, toList_ofList]
  rfl

theorem myHash_setE (reg : Registry) (xs : List Value) :
    myHash reg (.set (VList.ofList xs)) =
      match seqE (xs.map (myHash reg)) with
      | .error e => .error e
      | .ok ds => .ok (md5 (TYPE_SET ++ joinComma (insSort bytesLeB ds))) := by
  show myHashC reg emptyCache _ = _
  rw [myHashC_setE, toList_ofList]
  rfl

theorem myHash_frozensetE (reg : Registry) (xs : List Value) :
    myHash reg (.frozenset (VList.ofList xs)) =
      match seqE (xs.map (myHash reg)) with
      | .error e => .error e
      | .ok ds => .ok (md5 (TYPE_FROZENSET ++ joinComma (insSort bytesLeB ds))) := by
  show myHashC reg emptyCache _ = _
  rw [myHashC_frozensetE, toList_ofList]
  rfl

theorem myHash_dictE (reg : Registry) (es : List (Value × Value)) :
    myHash reg (.dict (VPairs.ofList es)) =
      match seqE ((insSort dictLe es).map (pairHash (myHash reg))) with
      | .error e => .error e
      | .ok ps => .ok (md5 (TYPE_DICT ++ joinComma ps)) := by
  show myHashC reg emptyCache _ = _
  rw [myHashC_dictE, toPairs_ofPairs]
  rfl

/-- If a sorted-combination container succeeds on `xs`, it succeeds on any
permutation `ys` with the same sorted digest list. -/
theorem perm_sorted_digests (reg : Registry) (xs ys : List Value) (hp : xs.Perm ys)
    (le : List Nat → List Nat → Bool)
    (htot : ∀ a b, le a b = true ∨ le b a = true)
    (htrans : ∀ a b c, le a b = true → le b c = true → le a c = true)
    (hanti : ∀ a b, le a b = true → le b a = true → a = b)
    (ds : List (List Nat)) (h : seqE (xs.map (myHash reg)) = .ok ds) :
    ∃ ds2, seqE (ys.map (myHash reg)) = .ok ds2 ∧ insSort le ds = insSort le ds2 := by
  have hperm := hp.map (myHash reg)
  obtain ⟨h2, hdsperm⟩ := seqE_perm _ _ hperm ds h
  exact ⟨_, h2, insSort_perm_eq le htot htrans _ _ hdsperm (fun a b _ _ => hanti a b)⟩

/-! ### The claims -/

/-- Claim C1: for every Sequence (list) and Set (set/frozenset) value the
digest is order-independent — any permutation of the elements produces
the same 16-byte digest; internally the list rule sorts the child
digests by byte value descending, joins them with a single comma byte
and prefixes `"list"` before digesting, while the set rules sort
ascending with prefix `"set"` / `"frozenset"`. -/
theorem c1_sequence_set_order_independence (reg : Registry) (xs ys : List Value)
    (hp : xs.Perm ys) :
    (∀ ds, seqE (xs.map (myHash reg)) = .ok ds →
        myHash reg (.list (VList.ofList xs)) =
          .ok (md5 (TYPE_LIST ++ joinComma (insSort bytesGeB ds)))) ∧
    (∀ d, myHash reg (.list (VList.ofList xs)) = .ok d →
        myHash reg (.list (VList.ofList ys)) = .ok d) ∧
    (∀ d, myHash reg (.set (VList.ofList xs)) = .ok d →
        myHash reg (.set (VList.ofList ys)) = .ok d) ∧
    (∀ d, myHash reg (.frozenset (VList.ofList xs)) = .ok d →
        myHash reg (.frozenset (VList.ofList ys)) = .ok d) ∧
    (∀ ds, seqE (xs.map (myHash reg)) = .ok ds →
        myHash reg (.set (VList.ofList xs)) =
          .ok (md5 (TYPE_SET ++ joinComma (insSort bytesLeB ds)))) ∧
    (∀ ds, seqE (xs.map (myHash reg)) = .ok ds →
        myHash reg (.frozenset (VList.ofList xs)) =
          .ok (md5 (TYPE_FROZENSET ++ joinComma (insSort bytesLeB ds)))) := by
  refine ⟨?_, ?_, ?_, ?_, ?_, ?_⟩
  · intro ds hds
    rw [myHash_listE, hds]
  · intro d hd
    rw [myHash_listE] at hd
    cases hseq : seqE (xs.map (myHash reg)) with
    | error e => rw [hseq] at hd; exact absurd hd (by simp)
    | ok ds =>
      rw [hseq] at hd
      obtain ⟨ds2, h2, heq⟩ := perm_sorted_digests reg xs ys hp bytesGeB
        bytesGeB_total bytesGeB_trans bytesGeB_antisymm ds hseq
      rw [myHash_listE, h2]
      show Except.ok (md5 (TYPE_LIST ++ joinComma (insSort bytesGeB ds2))) = .ok d
      rw [← heq]
      exact hd
  · intro d hd
    rw [myHash_setE] at hd
    cases hseq : seqE (xs.map (myHash reg)) with
    | error e => rw [hseq] at hd; exact absurd hd (by simp)
    | ok ds =>
      rw [hseq] at hd
      obtain ⟨ds2, h2, heq⟩ := perm_sorted_digests reg xs ys hp bytesLeB
        bytesLeB_total bytesLeB_trans bytesLeB_antisymm ds hseq
      rw [myHash_setE, h2]
      show Except.ok (md5 (TYPE_SET ++ joinComma (insSort bytesLeB ds2))) = .ok d
      rw [← heq]
      exact hd
  · intro d hd
    rw [myHash_frozensetE] at hd
    cases hseq : seqE (xs.map (myHash reg)) with
    | error e => rw [hseq] at hd; exact absurd hd (by simp)
    | ok ds =>
      rw [hseq] at hd
      obtain ⟨ds2, h2, heq⟩ := perm_sorted_digests reg xs ys hp bytesLeB
        bytesLeB_total bytesLeB_trans bytesLeB_antisymm ds hseq
      rw [myHash_frozensetE, h2]
      show Except.ok (md5 (TYPE_FROZENSET ++ joinComma (insSort bytesLeB ds2))) = .ok d
      rw [← heq]
      exact hd
  · intro ds hds
    rw [myHash_setE, hds]
  · intro ds hds
    rw [myHash_frozensetE, hds]

/-- Witness for C1 at a concrete input: hashing the permuted list
`[2, 1]` yields the digest computed from the sorted child digests of
`[1, 2]`. -/
theorem c1_witness :
    myHash [] (.list (VList.ofList [.int 2, .int 1])) =
      .ok (md5 (TYPE_LIST ++ joinComma (insSort bytesGeB
        [md5 (TYPE_INT ++ strBytes "1"), md5 (TYPE_INT ++ strBytes "2")]))) :=
  (c1_sequence_set_order_independence [] [.int 1, .int 2] [.int 2, .int 1]
      (List.Perm.swap (Value.int 2) (Value.int 1) [])).2.1
    (md5 (TYPE_LIST ++ joinComma (insSort bytesGeB
      [md5 (TYPE_INT ++ strBytes "1"), md5 (TYPE_INT ++ strBytes "2")])))
    (ok_of_parts _ _ (by decide) (by decide))

/-- Counterexample to C2 as stated: the two mappings
`{1: "a", "1": "b"}` and `{"1": "b", 1: "a"}` contain exactly the same
key-value pairs, yet their digests differ, because the distinct keys
`1` and `"1"` share the string representation `"1"`, so the stable sort
by `str(key)` preserves the differing insertion orders. -/
theorem c2_counterexample :
    myHash [] (.dict (VPairs.ofList [(.int 1, .str "a"), (.str "1", .str "b")])) ≠
      myHash [] (.dict (VPairs.ofList [(.str "1", .str "b"), (.int 1, .str "a")])) :=
  fun h => absurd (congrArg digestOf h) (by decide)

/-- Claim C2, amended: for every Mapping whose keys have pairwise
distinct string representations, the digest is independent of key
insertion order; entries are sorted (stably) by `str(key)`, which is a
total order, but distinct keys may share a string form, and for such
mappings the digest depends on insertion order (see the
counterexample). -/
theorem c2_dict_key_order_independence (reg : Registry) (es es2 : List (Value × Value))
    (hp : es.Perm es2)
    (hkeys : es.Pairwise (fun e1 e2 => pyStr e1.1 ≠ pyStr e2.1)) :
    myHash reg (.dict (VPairs.ofList es)) = myHash reg (.dict (VPairs.ofList es2)) := by
  rw [myHash_dictE, myHash_dictE]
  have hsort : insSort dictLe es = insSort dictLe es2 := by
    refine insSort_perm_eq dictLe dictLe_total dictLe_trans es es2 hp ?_
    intro a b ha hb hab hba
    have heqs : pyStr a.1 = pyStr b.1 := strLeB_antisymm _ _ hab hba
    by_cases heq : a = b
    · exact heq
    · have hsymm : Symmetric (fun e1 e2 : Value × Value => pyStr e1.1 ≠ pyStr e2.1) :=
        fun x y hxy hyx => hxy hyx.symm
      exact absurd heqs (hkeys.forall hsymm ha hb heq)
  rw [hsort]

/-- Witness for the amended C2 at a concrete input: the mapping
`{"a": 1, "b": 2}` hashes equally under its two insertion orders. -/
theorem c2_witness :
    myHash [] (.dict (VPairs.ofList [(.str "a", .int 1), (.str "b", .int 2)])) =
      myHash [] (.dict (VPairs.ofList [(.str "b", .int 2), (.str "a", .int 1)])) :=
  c2_dict_key_order_independence [] [(.str "a", .int 1), (.str "b", .int 2)]
    [(.str "b", .int 2), (.str "a", .int 1)]
    (List.Perm.swap ((Value.str "b"), (Value.int 2)) ((Value.str "a"), (Value.int 1)) [])
    (by decide)

/-- Claim C3: every scalar digests as `digest(prefix ++ payload)` per the
fixed table — `None` is `digest(0x00)` with empty payload; an int or a
float is `digest(0x01 ++ utf8(decimal string))`, the `0x01` prefix
shared between the two kinds (a float value is represented here by its
decimal `str()` form); a bool is `digest(0x01 ++ one byte 0 or 1)`; a
str is `digest(0x02 ++ utf8 bytes)`; a bytes value is
`digest(0x03 ++ the bytes verbatim)`. -/
theorem c3_scalar_rules (reg : Registry) :
    myHash reg .null = .ok (md5 TYPE_NONE) ∧
    (∀ n : Int, myHash reg (.int n) = .ok (md5 (TYPE_INT ++ strBytes (toString n)))) ∧
    (∀ s, myHash reg (.float s) = .ok (md5 (TYPE_INT ++ strBytes s))) ∧
    (∀ b, myHash reg (.bool b) = .ok (md5 (TYPE_INT ++ [if b then 1 else 0]))) ∧
    (∀ s, myHash reg (.str s) = .ok (md5 (TYPE_STR ++ strBytes s))) ∧
    (∀ bs, myHash reg (.bytes bs) = .ok (md5 (TYPE_BYTES ++ bs))) :=
  ⟨myHashC_nullE reg emptyCache,
   fun n => myHashC_intE reg emptyCache n,
   fun s => myHashC_floatE reg emptyCache s,
   fun b => myHashC_boolE reg emptyCache b,
   fun s => myHashC_strE reg emptyCache s,
   fun bs => myHashC_bytesE reg emptyCache bs⟩

/-- Claim C4: for every ImmutableSequence (tuple) the digest joins the
child digests in original index order (no sorting), comma-separated,
prefixed `"tuple"`, then digests; in particular the tuples `(1, 2, 3)`
and `(1, 3, 2)` hash differently. -/
theorem c4_tuple_order_sensitive :
    (∀ (reg : Registry) (xs : List Value) (ds : List (List Nat)),
        seqE (xs.map (myHash reg)) = .ok ds →
        myHash reg (.tuple (VList.ofList xs)) = .ok (md5 (TYPE_TUPLE ++ joinComma ds))) ∧
    myHash [] (.tuple (VList.ofList [.int 1, .int 2, .int 3])) ≠
      myHash [] (.tuple (VList.ofList [.int 1, .int 3, .int 2])) :=
  ⟨fun reg xs ds h => by rw [myHash_tupleE, h],
   fun h => absurd (congrArg digestOf h) (by decide)⟩

/-- Witness for C4 at a concrete input: the one-element tuple `(5,)`
digests its child digest with prefix `"tuple"`. -/
theorem c4_witness :
    myHash [] (.tuple (VList.ofList [.int 5])) =
      .ok (md5 (TYPE_TUPLE ++ joinComma [md5 (TYPE_INT ++ strBytes "5")])) := by
  have h5 : myHash [] (.int 5) = .ok (md5 (TYPE_INT ++ strBytes "5")) :=
    ok_of_parts _ _ (by decide) (by decide)
  refine c4_tuple_order_sensitive.1 [] [.int 5] [md5 (TYPE_INT ++ strBytes "5")] ?_
  show seqE [myHash [] (.int 5)] = _
  rw [h5]
  rfl

/-- Claim C5: registry resolution order, first match wins — a value with
a `__hash_bytes__` capability is digested from that capability's output
even when a handler is registered for its type (the registry is
universally quantified here, so registration cannot change the result);
otherwise the exact runtime type is looked up; otherwise registered
types are scanned in registration order for the first the value is an
instance of; otherwise resolution reports not-found and hashing fails.
Whatever way a handler is
resolved, its output bytes `bs` produce `digest("custom" ++ bs)`. -/
theorem c5_registry_resolution (reg : Registry) (o : OpaqueVal) :
    (∀ bs, o.hashBytes = some (.ok bs) →
        myHash reg (.custom o) = .ok (md5 (TYPE_CUSTOM ++ bs))) ∧
    (∀ h bs, o.hashBytes = none → lookupType reg o.tyName = some h → h o = .ok bs →
        myHash reg (.custom o) = .ok (md5 (TYPE_CUSTOM ++ bs))) ∧
    (∀ t h, o.hashBytes = none → lookupType reg o.tyName = none →
        reg.find? (fun e => instOf o e.1) = some (t, h) → getHandler reg o = some h) ∧
    (o.hashBytes = none → lookupType reg o.tyName = none →
        reg.find? (fun e => instOf o e.1) = none → getHandler reg o = none) ∧
    (getHandler reg o = none → myHash reg (.custom o) = .error (.unsupported o.tyName)) ∧
    (∀ h bs, getHandler reg o = some h → h o = .ok bs →
        myHash reg (.custom o) = .ok (md5 (TYPE_CUSTOM ++ bs))) := by
  refine ⟨?_, ?_, ?_, ?_, ?_, ?_⟩
  · intro bs hb
    show myHashC reg emptyCache _ = _
    rw [myHashC_customE]
    unfold getHandler
    rw [hb]
    show (match (match o.hashBytes with
        | some r => r
        | none => HRes.raises "no __hash_bytes__") with
      | HRes.ok bs2 => Except.ok (md5 (TYPE_CUSTOM ++ bs2))
      | HRes.raises m => Except.error (PyErr.handlerFailed o.tyName m)) = _
    rw [hb]
  · intro h bs hb hl hh
    show myHashC reg emptyCache _ = _
    rw [myHashC_customE]
    unfold getHandler
    rw [hb, hl]
    show (match h o with
      | HRes.ok bs2 => Except.ok (md5 (TYPE_CUSTOM ++ bs2))
      | HRes.raises m => Except.error (PyErr.handlerFailed o.tyName m)) = _
    rw [hh]
  · intro t h hb hl hfind
    unfold getHandler
    rw [hb, hl, hfind]
  · intro hb hl hfind
    unfold getHandler
    rw [hb, hl, hfind]
  · intro hg
    show myHashC reg emptyCache _ = _
    rw [myHashC_customE, hg]
  · intro h bs hg hh
    show myHashC reg emptyCache _ = _
    rw [myHashC_customE, hg]
    show (match h o with
      | HRes.ok bs2 => Except.ok (md5 (TYPE_CUSTOM ++ bs2))
      | HRes.raises m2 => Except.error (PyErr.handlerFailed o.tyName m2)) = _
    rw [hh]

/-- Witness for C5 at a concrete input: a value whose type both exposes
`__hash_bytes__` (returning `[1, 2, 3]`) and has a registered handler
(returning `[9, 9]`) digests the capability's bytes, wrapped as
`digest("custom" ++ bytes)`. -/
theorem c5_witness :
    myHash [("CustomThing", fun _ => HRes.ok [9, 9])]
      (.custom ⟨"CustomThing", [], some (.ok [1, 2, 3])⟩) =
      .ok (md5 (TYPE_CUSTOM ++ [1, 2, 3])) :=
  (c5_registry_resolution [("CustomThing", fun _ => HRes.ok [9, 9])]
    ⟨"CustomThing", [], some (.ok [1, 2, 3])⟩).1 [1, 2, 3] rfl

/-! ### Success propagation through containers -/

theorem myHash_list_isOk (reg : Registry) (xs : List Value) :
    isOkE (myHash reg (.list (VList.ofList xs))) = true ↔
      ∀ v ∈ xs, isOkE (myHash reg v) = true := by
  rw [myHash_listE]
  cases hseq : seqE (xs.map (myHash reg)) with
  | error e =>
    constructor
    · intro h; exact absurd h (by simp [isOkE])
    · intro hall
      have h2 := seqE_all_ok (xs.map (myHash reg)) (fun e2 he2 => by
        rcases List.mem_map.mp he2 with ⟨v, hv, rfl⟩
        exact hall v hv)
      rw [h2] at hseq
      exact absurd hseq (by simp)
  | ok ds =>
    constructor
    · intro _ v hv
      have hshape := seqE_ok_shape _ _ hseq
      have hmem : myHash reg v ∈ xs.map (myHash reg) := List.mem_map_of_mem _ hv
      rw [hshape] at hmem
      rcases List.mem_map.mp hmem with ⟨d, _, heq⟩
      rw [← heq]
      rfl
    · intro _; rfl

theorem myHash_tuple_isOk (reg : Registry) (xs : List Value) :
    isOkE (myHash reg (.tuple (VList.ofList xs))) = true ↔
      ∀ v ∈ xs, isOkE (myHash reg v) = true := by
  rw [myHash_tupleE]
  cases hseq : seqE (xs.map (myHash reg)) with
  | error e =>
    constructor
    · intro h; exact absurd h (by simp [isOkE])
    · intro hall
      have h2 := seqE_all_ok (xs.map (myHash reg)) (fun e2 he2 => by
        rcases List.mem_map.mp he2 with ⟨v, hv, rfl⟩
        exact hall v hv)
      rw [h2] at hseq
      exact absurd hseq (by simp)
  | ok ds =>
    constructor
    · intro _ v hv
      have hshape := seqE_ok_shape _ _ hseq
      have hmem : myHash reg v ∈ xs.map (myHash reg) := List.mem_map_of_mem _ hv
      rw [hshape] at hmem
      rcases List.mem_map.mp hmem with ⟨d, _, heq⟩
      rw [← heq]
      rfl
    · intro _; rfl

theorem myHash_set_isOk (reg : Registry) (xs : List Value) :
    isOkE (myHash reg (.set (VList.ofList xs))) = true ↔
      ∀ v ∈ xs, isOkE (myHash reg v) = true := by
  rw [myHash_setE]
  cases hseq : seqE (xs.map (myHash reg)) with
  | error e =>
    constructor
    · intro h; exact absurd h (by simp [isOkE])
    · intro hall
      have h2 := seqE_all_ok (xs.map (myHash reg)) (fun e2 he2 => by
        rcases List.mem_map.mp he2 with ⟨v, hv, rfl⟩
        exact hall v hv)
      rw [h2] at hseq
      exact absurd hseq (by simp)
  | ok ds =>
    constructor
    · intro _ v hv
      have hshape := seqE_ok_shape _ _ hseq
      have hmem : myHash reg v ∈ xs.map (myHash reg) := List.mem_map_of_mem _ hv
      rw [hshape] at hmem
      rcases List.mem_map.mp hmem with ⟨d, _, heq⟩
      rw [← heq]
      rfl
    · intro _; rfl

theorem myHash_frozenset_isOk (reg : Registry) (xs : List Value) :
    isOkE (myHash reg (.frozenset (VList.ofList xs))) = true ↔
      ∀ v ∈ xs, isOkE (myHash reg v) = true := by
  rw [myHash_frozensetE]
  cases hseq : seqE (xs.map (myHash reg)) with
  | error e =>
    constructor
    · intro h; exact absurd h (by simp [isOkE])
    · intro hall
      have h2 := seqE_all_ok (xs.map (myHash reg)) (fun e2 he2 => by
        rcases List.mem_map.mp he2 with ⟨v, hv, rfl⟩
        exact hall v hv)
      rw [h2] at hseq
      exact absurd hseq (by simp)
  | ok ds =>
    constructor
    · intro _ v hv
      have hshape := seqE_ok_shape _ _ hseq
      have hmem : myHash reg v ∈ xs.map (myHash reg) := List.mem_map_of_mem _ hv
      rw [hshape] at hmem
      rcases List.mem_map.mp hmem with ⟨d, _, heq⟩
      rw [← heq]
      rfl
    · intro _; rfl

theorem myHash_dict_isOk (reg : Registry) (es : List (Value × Value)) :
    isOkE (myHash reg (.dict (VPairs.ofList es))) = true ↔
      ∀ kv ∈ es, isOkE (myHash reg kv.1) = true ∧ isOkE (myHash reg kv.2) = true := by
  rw [myHash_dictE]
  have hmem2 : ∀ kv : Value × Value, kv ∈ insSort dictLe es ↔ kv ∈ es :=
    fun kv => insSort_mem _ _ _
  cases hseq : seqE ((insSort dictLe es).map (pairHash (myHash reg))) with
  | error e =>
    constructor
    · intro h; exact absurd h (by simp [isOkE])
    · intro hall
      have h2 := seqE_all_ok ((insSort dictLe es).map (pairHash (myHash reg)))
        (fun e2 he2 => by
          rcases List.mem_map.mp he2 with ⟨kv, hkv, rfl⟩
          exact (pairHash_isOk _ kv).mpr (hall kv ((hmem2 kv).mp hkv)))
      rw [h2] at hseq
      exact absurd hseq (by simp)
  | ok ps =>
    constructor
    · intro _ kv hkv
      have hshape := seqE_ok_shape _ _ hseq
      have hmem : pairHash (myHash reg) kv ∈ (insSort dictLe es).map (pairHash (myHash reg)) :=
        List.mem_map_of_mem _ ((hmem2 kv).mpr hkv)
      rw [hshape] at hmem
      rcases List.mem_map.mp hmem with ⟨d, _, heq⟩
      have hok : isOkE (pairHash (myHash reg) kv) = true := by rw [← heq]; rfl
      exact (pairHash_isOk _ kv).mp hok
    · intro _; rfl

theorem myHash_scalar_isOk (reg : Registry) :
    isOkE (myHash reg .null) = true ∧
    (∀ n : Int, isOkE (myHash reg (.int n)) = true) ∧
    (∀ s, isOkE (myHash reg (.float s)) = true) ∧
    (∀ b, isOkE (myHash reg (.bool b)) = true) ∧
    (∀ s, isOkE (myHash reg (.str s)) = true) ∧
    (∀ bs, isOkE (myHash reg (.bytes bs)) = true) := by
  refine ⟨?_, ?_, ?_, ?_, ?_, ?_⟩
  · rw [show myHash reg .null = myHashC reg emptyCache .null from rfl, myHashC_nullE]; rfl
  · intro n
    rw [show myHash reg (.int n) = myHashC reg emptyCache (.int n) from rfl, myHashC_intE]
    rfl
  · intro s
    rw [show myHash reg (.float s) = myHashC reg emptyCache (.float s) from rfl, myHashC_floatE]
    rfl
  · intro b
    rw [show myHash reg (.bool b) = myHashC reg emptyCache (.bool b) from rfl, myHashC_boolE]
    rfl
  · intro s
    rw [show myHash reg (.str s) = myHashC reg emptyCache (.str s) from rfl, myHashC_strE]
    rfl
  · intro bs
    rw [show myHash reg (.bytes bs) = myHashC reg emptyCache (.bytes bs) from rfl, myHashC_bytesE]
    rfl

/-- Claim C7: hashing fails with an unsupported-type error carrying the
offending runtime type name exactly when the value is an opaque object
that neither exposes the `__hash_bytes__` capability nor resolves
through the registry; a handler that raises is wrapped with the type
name and the original message and propagated; success of a container
digest is exactly success of every child digest (errors are never
swallowed into a partial digest); and recognized scalars never fail. -/
theorem c7_error_contract (reg : Registry) :
    (∀ o : OpaqueVal, myHash reg (.custom o) = .error (.unsupported o.tyName) ↔
        getHandler reg o = none) ∧
    (∀ (o : OpaqueVal) (h : Handler) (m : String),
        getHandler reg o = some h → h o = .raises m →
        myHash reg (.custom o) = .error (.handlerFailed o.tyName m)) ∧
    (∀ xs : List Value, isOkE (myHash reg (.list (VList.ofList xs))) = true ↔
        ∀ v ∈ xs, isOkE (myHash reg v) = true) ∧
    (∀ xs : List Value, isOkE (myHash reg (.tuple (VList.ofList xs))) = true ↔
        ∀ v ∈ xs, isOkE (myHash reg v) = true) ∧
    (∀ xs : List Value, isOkE (myHash reg (.set (VList.ofList xs))) = true ↔
        ∀ v ∈ xs, isOkE (myHash reg v) = true) ∧
    (∀ xs : List Value, isOkE (myHash reg (.frozenset (VList.ofList xs))) = true ↔
        ∀ v ∈ xs, isOkE (myHash reg v) = true) ∧
    (∀ es : List (Value × Value), isOkE (myHash reg (.dict (VPairs.ofList es))) = true ↔
        ∀ kv ∈ es, isOkE (myHash reg kv.1) = true ∧ isOkE (myHash reg kv.2) = true) ∧
    (isOkE (myHash reg .null) = true ∧
     (∀ n : Int, isOkE (myHash reg (.int n)) = true) ∧
     (∀ s, isOkE (myHash reg (.float s)) = true) ∧
     (∀ b, isOkE (myHash reg (.bool b)) = true) ∧
     (∀ s, isOkE (myHash reg (.str s)) = true) ∧
     (∀ bs, isOkE (myHash reg (.bytes bs)) = true)) := by
  refine ⟨?_, ?_, myHash_list_isOk reg, myHash_tuple_isOk reg, myHash_set_isOk reg,
    myHash_frozenset_isOk reg, myHash_dict_isOk reg, myHash_scalar_isOk reg⟩
  · intro o
    constructor
    · intro h
      cases hg : getHandler reg o with
      | none => rfl
      | some hh =>
        rw [show myHash reg (.custom o) = myHashC reg emptyCache (.custom o) from rfl,
          myHashC_customE, hg] at h
        have h3 : (match hh o with
            | HRes.ok bs2 => Except.ok (md5 (TYPE_CUSTOM ++ bs2))
            | HRes.raises m2 => Except.error (PyErr.handlerFailed o.tyName m2)) =
            Except.error (PyErr.unsupported o.tyName) := h
        cases hres : hh o with
        | ok bs => rw [hres] at h3; exact absurd h3 (by simp)
        | raises m => rw [hres] at h3; exact absurd h3 (by simp)
    · intro hg
      rw [show myHash reg (.custom o) = myHashC reg emptyCache (.custom o) from rfl,
        myHashC_customE, hg]
  · intro o h m hg hres
    rw [show myHash reg (.custom o) = myHashC reg emptyCache (.custom o) from rfl,
      myHashC_customE, hg]
    show (match h o with
      | HRes.ok bs2 => Except.ok (md5 (TYPE_CUSTOM ++ bs2))
      | HRes.raises m2 => Except.error (PyErr.handlerFailed o.tyName m2)) = _
    rw [hres]

/-- Witness for C7 at a concrete input: an opaque value with no
capability against an empty registry fails with the unsupported-type
error carrying its type name. -/
theorem c7_witness :
    myHash [] (.custom ⟨"Mystery", [], none⟩) = .error (.unsupported "Mystery") :=
  ((c7_error_contract []).1 ⟨"Mystery", [], none⟩).mpr rfl

/-! ### Deep nesting -/

theorem nestDict_isOk (reg : Registry) : ∀ n, isOkE (myHash reg (nestDict n)) = true := by
  intro n
  induction n with
  | zero => exact (myHash_scalar_isOk reg).2.1 0
  | succ n ih =>
    show isOkE (myHash reg (.dict (VPairs.ofList [(.str "k", nestDict n)]))) = true
    refine (myHash_dict_isOk reg [(.str "k", nestDict n)]).mpr ?_
    intro kv hkv
    rcases List.mem_cons.mp hkv with rfl | h2
    · exact ⟨(myHash_scalar_isOk reg).2.2.2.2.1 "k", ih⟩
    · exact absurd h2 (by simp)

theorem myHash_ok_length (reg : Registry) (v : Value) (d : List Nat)
    (h : myHash reg v = .ok d) : d.length = 16 := by
  have h2 : myHashC reg emptyCache v = .ok d := h
  cases v with
  | null => rw [myHashC_nullE] at h2; cases h2; exact md5_length _
  | int n => rw [myHashC_intE] at h2; cases h2; exact md5_length _
  | float s => rw [myHashC_floatE] at h2; cases h2; exact md5_length _
  | bool b => rw [myHashC_boolE] at h2; cases h2; exact md5_length _
  | str s => rw [myHashC_strE] at h2; cases h2; exact md5_length _
  | bytes bs => rw [myHashC_bytesE] at h2; cases h2; exact md5_length _
  | list xs =>
    rw [myHashC_listE] at h2
    cases hseq : seqE (xs.toList.map (myHashC reg emptyCache)) with
    | error e => rw [hseq] at h2; exact absurd h2 (by simp)
    | ok ds => rw [hseq] at h2; cases h2; exact md5_length _
  | tuple xs =>
    rw [myHashC_tupleE] at h2
    cases hseq : seqE (xs.toList.map (myHashC reg emptyCache)) with
    | error e => rw [hseq] at h2; exact absurd h2 (by simp)
    | ok ds => rw [hseq] at h2; cases h2; exact md5_length _
  | dict es =>
    rw [myHashC_dictE] at h2
    cases hseq : seqE ((insSort dictLe es.toList).map (pairHash (myHashC reg emptyCache))) with
    | error e => rw [hseq] at h2; exact absurd h2 (by simp)
    | ok ps => rw [hseq] at h2; cases h2; exact md5_length _
  | set xs =>
    rw [myHashC_setE] at h2
    cases hseq : seqE (xs.toList.map (myHashC reg emptyCache)) with
    | error e => rw [hseq] at h2; exact absurd h2 (by simp)
    | ok ds => rw [hseq] at h2; cases h2; exact md5_length _
  | frozenset xs =>
    rw [myHashC_frozensetE] at h2
    cases hseq : seqE (xs.toList.map (myHashC reg emptyCache)) with
    | error e => rw [hseq] at h2; exact absurd h2 (by simp)
    | ok ds => rw [hseq] at h2; cases h2; exact md5_length _
  | custom o =>
    rw [myHashC_customE] at h2
    cases hg : getHandler reg o with
    | none => rw [hg] at h2; exact absurd h2 (by simp)
    | some hh =>
      rw [hg] at h2
      have h3 : (match hh o with
          | HRes.ok bs2 => Except.ok (md5 (TYPE_CUSTOM ++ bs2))
          | HRes.raises m2 => Except.error (PyErr.handlerFailed o.tyName m2)) =
          Except.ok d := h2
      cases hres : hh o with
      | ok bs => rw [hres] at h3; cases h3; exact md5_length _
      | raises m => rw [hres] at h3; exact absurd h3 (by simp)

/-- Claim C8: a Mapping nested 1,000 levels deep by successive
single-key wrapping hashes to completion, returning a 16-byte digest
without failure.  (The totality of the embedded engine corresponds to
the source's explicit work-list traversal of dict values, which does not
consume native call depth.) -/
theorem c8_deep_nested_mapping (reg : Registry) :
    ∃ d, myHash reg (nestDict 1000) = .ok d ∧ d.length = 16 := by
  have hok := nestDict_isOk reg 1000
  cases hr : myHash reg (nestDict 1000) with
  | error e => rw [hr] at hok; exact absurd hok (by simp [isOkE])
  | ok d => exact ⟨d, rfl, myHash_ok_length reg _ d hr⟩

/-! ### Cache independence -/

theorem hashPrimC_cacheOK (c : ScalarCache) (hc : CacheOK c) (v : Value) :
    hashPrimC c v = hashPrimC emptyCache v := by
  cases v with
  | str s =>
    show some (cacheGet (c.strC s) (md5 (TYPE_STR ++ strBytes s))) = some (cacheGet none _)
    cases hcs : c.strC s with
    | none => rfl
    | some d =>
      rw [show cacheGet (some d) (md5 (TYPE_STR ++ strBytes s)) = d from rfl, hc.1 s d hcs]
      rfl
  | int n =>
    show some (cacheGet (c.intC n) (md5 (TYPE_INT ++ strBytes (toString n))))
      = some (cacheGet none _)
    cases hcs : c.intC n with
    | none => rfl
    | some d =>
      rw [show cacheGet (some d) (md5 (TYPE_INT ++ strBytes (toString n))) = d from rfl,
        hc.2.1 n d hcs]
      rfl
  | float s =>
    show some (cacheGet (c.floatC s) (md5 (TYPE_INT ++ strBytes s))) = some (cacheGet none _)
    cases hcs : c.floatC s with
    | none => rfl
    | some d =>
      rw [show cacheGet (some d) (md5 (TYPE_INT ++ strBytes s)) = d from rfl, hc.2.2 s d hcs]
      rfl
  | null => rfl
  | bool b => rfl
  | bytes bs => rfl
  | list xs => rfl
  | tuple xs => rfl
  | dict es => rfl
  | set xs => rfl
  | frozenset xs => rfl
  | custom o => rfl

theorem myHashF_cacheOK (reg : Registry) (c : ScalarCache) (hc : CacheOK c) :
    ∀ fuel v, myHashF reg c fuel v = myHashF reg emptyCache fuel v := by
  intro fuel
  induction fuel with
  | zero => intro v; rfl
  | succ f ih =>
    intro v
    show hashStep reg c (myHashF reg c f) v = hashStep reg emptyCache (myHashF reg emptyCache f) v
    unfold hashStep
    rw [hashPrimC_cacheOK c hc v]
    cases hp : hashPrimC emptyCache v with
    | some d => rfl
    | none => exact containerStep_congr reg _ _ v (fun x _ => ih x)

/-- Claim C9: the digest is deterministic — `myHash` is a pure function
of the value (and the registry contents), so repeated calls agree
definitionally, and the result is independent of the scalar-cache
state: under any cache state reachable by the memoised scalar hash
functions (`CacheOK`, which also covers every LRU-evicted state and the
empty cache of a fresh process), the engine returns exactly the digest
of the empty-cache run. -/
theorem c9_deterministic_cache_independent (reg : Registry) (c : ScalarCache) (v : Value)
    (hc : CacheOK c) :
    myHashC reg c v = myHash reg v ∧ myHash reg v = myHash reg v := by
  refine ⟨?_, rfl⟩
  show myHashF reg c (vsize v) v = myHashF reg emptyCache (vsize v) v
  exact myHashF_cacheOK reg c hc (vsize v) v

/-- Witness for C9 at a concrete input: a cache state holding the
(correct) memoised digest for the string key `"k"` yields the same
digest as a fresh process for the value `"k"`. -/
theorem c9_witness :
    myHashC []
      ⟨fun s => if s = "k" then some (md5 (TYPE_STR ++ strBytes "k")) else none,
       fun _ => none, fun _ => none⟩ (.str "k") =
      myHash [] (.str "k") :=
  (c9_deterministic_cache_independent []
    ⟨fun s => if s = "k" then some (md5 (TYPE_STR ++ strBytes "k")) else none,
     fun _ => none, fun _ => none⟩ (.str "k")
    ⟨fun s d hsd => by
        have hsd2 : (if s = "k" then some (md5 (TYPE_STR ++ strBytes "k")) else none)
            = some d := hsd
        by_cases hs : s = "k"
        · rw [if_pos hs] at hsd2
          cases hsd2
          rw [hs]
        · rw [if_neg hs] at hsd2
          exact absurd hsd2 (by simp),
     fun n d hnd => absurd hnd (by simp),
     fun s d hsd => absurd hsd (by simp)⟩).1

/-- Claim C6: every empty container digests to the bare type prefix with
no payload and no separator; the five digests are pairwise distinct
(`myHash` being a pure function, each is also stable across calls). -/
theorem c6_empty_container_digests (reg : Registry) :
    (myHash reg (.list .nil) = .ok (md5 TYPE_LIST) ∧
     myHash reg (.tuple .nil) = .ok (md5 TYPE_TUPLE) ∧
     myHash reg (.dict .nil) = .ok (md5 TYPE_DICT) ∧
     myHash reg (.set .nil) = .ok (md5 TYPE_SET) ∧
     myHash reg (.frozenset .nil) = .ok (md5 TYPE_FROZENSET)) ∧
    (myHash reg (.list .nil) ≠ myHash reg (.tuple .nil) ∧
     myHash reg (.list .nil) ≠ myHash reg (.dict .nil) ∧
     myHash reg (.list .nil) ≠ myHash reg (.set .nil) ∧
     myHash reg (.list .nil) ≠ myHash reg (.frozenset .nil) ∧
     myHash reg (.tuple .nil) ≠ myHash reg (.dict .nil) ∧
     myHash reg (.tuple .nil) ≠ myHash reg (.set .nil) ∧
     myHash reg (.tuple .nil) ≠ myHash reg (.frozenset .nil) ∧
     myHash reg (.dict .nil) ≠ myHash reg (.set .nil) ∧
     myHash reg (.dict .nil) ≠ myHash reg (.frozenset .nil) ∧
     myHash reg (.set .nil) ≠ myHash reg (.frozenset .nil)) :=
  ⟨⟨rfl, rfl, rfl, rfl, rfl⟩,
   ⟨okNe (md5 TYPE_LIST) (md5 TYPE_TUPLE) (by decide),
    okNe (md5 TYPE_LIST) (md5 TYPE_DICT) (by decide),
    okNe (md5 TYPE_LIST) (md5 TYPE_SET) (by decide),
    okNe (md5 TYPE_LIST) (md5 TYPE_FROZENSET) (by decide),
    okNe (md5 TYPE_TUPLE) (md5 TYPE_DICT) (by decide),
    okNe (md5 TYPE_TUPLE) (md5 TYPE_SET) (by decide),
    okNe (md5 TYPE_TUPLE) (md5 TYPE_FROZENSET) (by decide),
    okNe (md5 TYPE_DICT) (md5 TYPE_SET) (by decide),
    okNe (md5 TYPE_DICT) (md5 TYPE_FROZENSET) (by decide),
    okNe (md5 TYPE_SET) (md5 TYPE_FROZENSET) (by decide)⟩⟩

/-- Claim C10: the small-container fast paths never change the result —
whenever `Hasher._fast_path` produces a digest (for a primitive, an
empty container, or a one-element list or tuple holding a primitive),
the general work-list combination rule for that value produces exactly
the same digest, for every registry and scalar-cache state. -/
theorem c10_fast_path_refines (reg : Registry) (c : ScalarCache) (v : Value) (d : List Nat)
    (h : fastPath c v = some d) : myHashC reg c v = .ok d := by
  unfold fastPath at h
  cases hp : hashPrimC c v with
  | some d2 =>
    rw [hp] at h
    cases h
    rw [myHashC_unfold]
    unfold hashStep
    rw [hp]
  | none =>
    rw [hp] at h
    cases v with
    | list xs =>
      cases xs with
      | nil =>
        have h2 : some (md5 TYPE_LIST) = some d := h
        cases h2
        rw [myHashC_listE]
        rfl
      | cons x tl =>
        cases tl with
        | nil =>
          have h2 : (match hashPrimC c x with
              | some hx => some (md5 (TYPE_LIST ++ hx))
              | none => (none : Option (List Nat))) = some d := h
          cases hx : hashPrimC c x with
          | none => rw [hx] at h2; exact absurd h2 (by simp)
          | some hd =>
            rw [hx] at h2
            cases h2
            rw [myHashC_listE]
            have hchild : myHashC reg c x = .ok hd := by
              rw [myHashC_unfold]
              unfold hashStep
              rw [hx]
            show (match seqE ([x].map (myHashC reg c)) with
              | Except.error e => Except.error e
              | Except.ok ds => Except.ok (md5 (TYPE_LIST ++ joinComma (insSort bytesGeB ds)))) = _
            rw [show [x].map (myHashC reg c) = [Except.ok hd] from by simp [hchild]]
            rfl
        | cons y tl2 =>
          have h2 : (none : Option (List Nat)) = some d := h
          exact absurd h2 (by simp)
    | tuple xs =>
      cases xs with
      | nil =>
        have h2 : some (md5 TYPE_TUPLE) = some d := h
        cases h2
        rw [myHashC_tupleE]
        rfl
      | cons x tl =>
        cases tl with
        | nil =>
          have h2 : (match hashPrimC c x with
              | some hx => some (md5 (TYPE_TUPLE ++ hx))
              | none => (none : Option (List Nat))) = some d := h
          cases hx : hashPrimC c x with
          | none => rw [hx] at h2; exact absurd h2 (by simp)
          | some hd =>
            rw [hx] at h2
            cases h2
            rw [myHashC_tupleE]
            have hchild : myHashC reg c x = .ok hd := by
              rw [myHashC_unfold]
              unfold hashStep
              rw [hx]
            show (match seqE ([x].map (myHashC reg c)) with
              | Except.error e => Except.error e
              | Except.ok ds => Except.ok (md5 (TYPE_TUPLE ++ joinComma ds))) = _
            rw [show [x].map (myHashC reg c) = [Except.ok hd] from by simp [hchild]]
            rfl
        | cons y tl2 =>
          have h2 : (none : Option (List Nat)) = some d := h
          exact absurd h2 (by simp)
    | dict es =>
      cases es with
      | nil =>
        have h2 : some (md5 TYPE_DICT) = some d := h
        cases h2
        rw [myHashC_dictE]
        rfl
      | cons k w tl =>
        have h2 : (none : Option (List Nat)) = some d := h
        exact absurd h2 (by simp)
    | set xs =>
      cases xs with
      | nil =>
        have h2 : some (md5 TYPE_SET) = some d := h
        cases h2
        rw [myHashC_setE]
        rfl
      | cons x tl =>
        have h2 : (none : Option (List Nat)) = some d := h
        exact absurd h2 (by simp)
    | frozenset xs =>
      cases xs with
      | nil =>
        have h2 : some (md5 TYPE_FROZENSET) = some d := h
        cases h2
        rw [myHashC_frozensetE]
        rfl
      | cons x tl =>
        have h2 : (none : Option (List Nat)) = some d := h
        exact absurd h2 (by simp)
    | null => exact absurd (show (none : Option (List Nat)) = some d from h) (by simp)
    | int n => exact absurd (show (none : Option (List Nat)) = some d from h) (by simp)
    | float s => exact absurd (show (none : Option (List Nat)) = some d from h) (by simp)
    | bool b => exact absurd (show (none : Option (List Nat)) = some d from h) (by simp)
    | str s => exact absurd (show (none : Option (List Nat)) = some d from h) (by simp)
    | bytes bs => exact absurd (show (none : Option (List Nat)) = some d from h) (by simp)
    | custom o => exact absurd (show (none : Option (List Nat)) = some d from h) (by simp)

/-- Witness for C10 at a concrete input: the fast path digests the empty
dict as the bare `"dict"` prefix, and the general rule agrees. -/
theorem c10_witness :
    myHashC [] emptyCache (.dict .nil) = .ok (md5 TYPE_DICT) :=
  c10_fast_path_refines [] emptyCache (.dict .nil) (md5 TYPE_DICT) rfl

/-- Witness for C3 at a concrete input: the integer `5` digests as
`digest(0x01 ++ "5")`. -/
theorem c3_witness :
    myHash [] (.int 5) = .ok (md5 (TYPE_INT ++ strBytes (toString (5 : Int)))) :=
  (c3_scalar_rules []).2.1 5

/-- Witness for C6 at a concrete input: the empty list and the empty
tuple digest differently. -/
theorem c6_witness :
    myHash [] (.list .nil) ≠ myHash [] (.tuple .nil) :=
  (c6_empty_container_digests []).2.1

/-- Witness for C8 at a concrete registry: the 1,000-level nested
mapping digests to 16 bytes against the empty registry. -/
theorem c8_witness :
    ∃ d, myHash [] (nestDict 1000) = .ok d ∧ d.length = 16 :=
  c8_deep_nested_mapping []
